import Mathlib

/-!
Verification of the xml4js schema model and validating normalizer.

The development shallowly embeds the JavaScript source of the library:
JavaScript objects used as string-keyed maps become association lists,
exceptions become `Except`, unbounded `while` loops become fuel-indexed
recursion (the constructor `Err.outOfFuelE` marks fuel exhaustion, i.e.
divergence of the original loop), and the built-in value parsers become
Lean functions on `String`.
-/

/-- Association-list lookup; models `obj[key]` on a JavaScript object
used as a map (the value `undefined` becomes `none`). -/
def lookupA {β : Type} : List (String × β) → String → Option β
  | [], _ => none
  | (k, v) :: rest, key => if k = key then some v else lookupA rest key

/-- Association-list update; models `obj[key] = v`: replaces the value at an
existing key in place, otherwise appends the new binding. -/
def insertA {β : Type} : List (String × β) → String → β → List (String × β)
  | [], key, v => [(key, v)]
  | (k, w) :: rest, key, v =>
    if k = key then (k, v) :: rest else (k, w) :: insertA rest key v

/-- Models underscore `_.extend(a, b)`: every binding of `b` is written
into `a`, overriding existing keys. -/
def extendA {β : Type} (a b : List (String × β)) : List (String × β) :=
  b.foldl (fun acc kv => insertA acc kv.1 kv.2) a

/-- JavaScript truthiness of an optional string attribute: `undefined`
and the empty string are falsy. -/
def jsTruthy : Option String → Bool
  | none => false
  | some s => s ≠ ""

/-- Errors thrown by the embedded code.  The source throws
`xml2js.ValidationError` with various messages and `AssertionError` from
`assert`; the constructors record which throw site fired.
`outOfFuelE` is an artifact of the embedding marking that an unbounded
source loop was cut off by fuel. -/
inductive Err
  | unknownTypeE
  | unknownElementE
  | unknownAttributeE
  | noChildrenE
  | unexpectedAttributeE
  | invalidAttributeE
  | schemaMismatchE
  | assertionFailedE
  | coercionE
  | conflictDeclE
  | invalidDeclE
  | outOfFuelE
deriving DecidableEq, Repr

/-- JavaScript values produced by the built-in type parsers. -/
inductive JsVal
  | str (s : String)
  | boolV (b : Bool)
  | numV (n : Int)
  | nanV
  | strList (l : List String)
deriving DecidableEq, Repr

/-- Hex digit value, as accepted by JavaScript `parseInt` with a `0x` prefix. -/
def hexDigitVal (c : Char) : Option Nat :=
  if '0' ≤ c ∧ c ≤ '9' then some (c.toNat - '0'.toNat)
  else if 'a' ≤ c ∧ c ≤ 'f' then some (c.toNat - 'a'.toNat + 10)
  else if 'A' ≤ c ∧ c ≤ 'F' then some (c.toNat - 'A'.toNat + 10)
  else none

/-- Decimal digit test. -/
def isDec (c : Char) : Bool := '0' ≤ c ∧ c ≤ '9'

/-- Value of a list of decimal digits. -/
def decValue (cs : List Char) : Nat :=
  cs.foldl (fun acc c => acc * 10 + (c.toNat - '0'.toNat)) 0

/-- Value of a list of hex digits. -/
def hexValue (cs : List Char) : Nat :=
  cs.foldl (fun acc c => acc * 16 + ((hexDigitVal c).getD 0)) 0

/-- Embedding of JavaScript `parseInt(value)` (radix unspecified):
leading whitespace is skipped, an optional sign is read, a `0x`/`0X`
prefix switches to hexadecimal, the longest digit run is converted and
trailing garbage is ignored; no digits at all gives `NaN` (`none`). -/
def parseIntJs (value : String) : Option Int :=
  let cs := value.toList.dropWhile Char.isWhitespace
  let signAndRest : Int × List Char :=
    match cs with
    | '-' :: r => (-1, r)
    | '+' :: r => (1, r)
    | _ => (1, cs)
  match signAndRest.2 with
  | '0' :: 'x' :: r =>
    let ds := r.takeWhile (fun c => (hexDigitVal c).isSome)
    if ds = [] then none else some (signAndRest.1 * (hexValue ds : Int))
  | '0' :: 'X' :: r =>
    let ds := r.takeWhile (fun c => (hexDigitVal c).isSome)
    if ds = [] then none else some (signAndRest.1 * (hexValue ds : Int))
  | r =>
    let ds := r.takeWhile isDec
    if ds = [] then none else some (signAndRest.1 * (decValue ds : Int))

/-- Embedding of JavaScript `value.split(/\s+/)`: splits on maximal
whitespace runs, keeping an empty fragment for a leading or trailing
separator, and `""` splits to `[""]`.  The first argument tracks whether
the previous character belonged to a separator run. -/
def splitWsGo : Bool → List Char → List Char → List String
  | _, acc, [] => [String.mk acc.reverse]
  | prevWs, acc, c :: rest =>
    if c.isWhitespace then
      if prevWs then splitWsGo true acc rest
      else String.mk acc.reverse :: splitWsGo true [] rest
    else
      splitWsGo false (c :: acc) rest

/-- `split(/\s+/)` on a string. -/
def splitWsJs (s : String) : List String := splitWsGo false [] s.toList

/-- Decidable equality of `Except` results, used to evaluate the
embedded functions at concrete inputs. -/
instance {ε α : Type} [DecidableEq ε] [DecidableEq α] :
    DecidableEq (Except ε α) := fun x y =>
  match x, y with
  | .ok a, .ok b =>
    if h : a = b then .isTrue (by rw [h])
    else .isFalse (by intro hh; injection hh; contradiction)
  | .error e, .error f =>
    if h : e = f then .isTrue (by rw [h])
    else .isFalse (by intro hh; injection hh; contradiction)
  | .ok _, .error _ => .isFalse (by intro hh; injection hh)
  | .error _, .ok _ => .isFalse (by intro hh; injection hh)

/-- Embedding of JavaScript `value.toLowerCase()` (ASCII range; the
claims only exercise ASCII inputs). -/
def toLowerJs (s : String) : String := String.mk (s.toList.map Char.toLower)

/-- Source `types.string.parse` (also `normalizedString`, `token`, …,
`anyURI`): the identity parser. -/
def types_string_parse (value : String) : Except Err JsVal :=
  .ok (.str value)

/-- Source `types.boolean.parse`: literally the underscore `contains`
test of the lowered input against the four boolean lexemes, i.e. it
returns MEMBERSHIP of the input in the boolean lexical set. -/
def types_boolean_parse (value : String) : Except Err JsVal :=
  .ok (.boolV (["true", "false", "0", "1"].contains (toLowerJs value)))

/-- Source `types.integer.parse` (and all the integer sub-range types):
`parseInt(value)`; `NaN` becomes `JsVal.nanV`. -/
def types_integer_parse (value : String) : Except Err JsVal :=
  .ok (match parseIntJs value with
       | some n => .numV n
       | none => .nanV)

/-- Source `types.NMTOKENS.parse` (also `IDREFS`, `ENTITIES`):
`value.split(/\s+/)`. -/
def types_nmtokens_parse (value : String) : Except Err JsVal :=
  .ok (.strList (splitWsJs value))

/-- The local names of the built-in XML Schema types defined in the
source (`XS_TYPES = _.keys(types)`). -/
def XS_TYPES : List String :=
  ["string", "normalizedString", "token", "language", "NMTOKEN", "Name",
   "NCName", "ID", "IDREF", "ENTITY", "NMTOKENS", "IDREFS", "ENTITIES",
   "boolean", "integer", "nonPositiveInteger", "negativeInteger", "long",
   "int", "short", "byte", "nonNegativeInteger", "unsignedLong",
   "unsignedInt", "unsignedShort", "unsignedByte", "positiveInteger",
   "decimal", "double", "float", "dateTime", "date", "hexBinary",
   "base64Binary", "anyURI"]

/-- One value parser, as stored in the registry and passed to `tryParse`. -/
abbrev ValueParser := String → Except Err JsVal

/-- The loop body of the source `tryParse`: the `for` loop runs
`parse.length` times, and in EVERY iteration applies `parse[0]` (the
head) to the unchanged `value`; a thrown error is remembered and
rethrown once the loop ends; an empty list trips `assert(exception)`. -/
def tryParseGo (p : Option ValueParser) (value : String) :
    Nat → Option Err → Except Err JsVal
  | 0, none => .error .assertionFailedE
  | 0, some e => .error e
  | Nat.succ n, exc =>
    match p with
    | none => tryParseGo p value n exc
    | some p0 =>
      match p0 value with
      | .ok v => .ok v
      | .error e => tryParseGo p value n (some e)

/-- Source `tryParse(parse, value)` (the trial parser driver). -/
def tryParse (parse : List ValueParser) (value : String) : Except Err JsVal :=
  tryParseGo parse.head? value parse.length none

/-- The behaviour the specification requires of `tryParse`: the i-th
attempt invokes `parse[i]` and the result of the first parser that does
not throw is returned; on total failure the last error is rethrown.
This definition follows the words of the spec, for comparison with the
source embedding `tryParse`. -/
def tryParseSpec : List ValueParser → String → Except Err JsVal
  | [], _ => .error .assertionFailedE
  | p :: rest, value =>
    match p value with
    | .ok v => .ok v
    | .error e =>
      match rest with
      | [] => .error e
      | _ :: _ => tryParseSpec rest value


/-- Strip a leading namespace qualifier: embedding of
`name.replace(/^[^:]+:/, '')` — removes the shortest leading run of
non-colon characters followed by a colon, if the run is non-empty. -/
def stripNsQualifier (name : String) : String :=
  match name.toList.findIdx? (fun c => c = ':') with
  | some i => if 1 ≤ i then String.mk (name.toList.drop (i + 1)) else name
  | none => name

/-- Source `namespacedName(namespace, name)`: asserts both arguments
non-empty, strips a literal `xs:` qualifier, keeps an already qualified
name, and otherwise puts the name under `namespace`. -/
def namespacedName (namespace2 name : String) : Except Err String :=
  if namespace2 = "" then .error .assertionFailedE
  else if name = "" then .error .assertionFailedE
  else if name.take 3 = "xs:" then .ok (name.drop 3)
  else if name.toList.contains ':' then .ok name
  else .ok (namespace2 ++ ":" ++ name)

/-- Source `namespacedOrNotName(namespace, name, namespaced)`: the
qualified name, or the name with its qualifier stripped. -/
def namespacedOrNotName (namespace2 name : String) (namespaced : Bool) :
    Except Err String :=
  if namespaced then namespacedName namespace2 name
  else .ok (stripNsQualifier name)

/-- Source `namespacedTypeName(namespace, name)`: XML Schema built-in
type names stay unqualified, everything else goes through
`namespacedName`. -/
def namespacedTypeName (namespace2 name : String) : Except Err String :=
  if namespace2 = "" then .error .assertionFailedE
  else if name = "" then .error .assertionFailedE
  else if XS_TYPES.contains name then .ok name
  else namespacedName namespace2 name

/-- An attribute spec in a registry: either directly a type name or a
reference to a global attribute (`{ ref: … }`). -/
inductive AttrSpec
  | named (typeName : String)
  | byRef (r : String)
deriving DecidableEq, Repr

/-- An element spec: a global element entry or a child spec of a complex
type.  The source field `type` is called `typeName` here. -/
structure ElemSpec where
  ref : Option String := none
  typeName : Option String := none
  isArray : Option Bool := none
  isArrayDefault : Option Bool := none
deriving DecidableEq, Repr

/-- The `base` component of a type entry content: a single base type
name, or the member list of a `<union>`. -/
inductive BaseRef
  | single (b : String)
  | multi (bs : List String)
deriving DecidableEq, Repr

/-- The `content` object of a type entry (`{ base, attributes }`). -/
structure ContentEntry where
  base : Option BaseRef := none
  attributes : Option (List (String × AttrSpec)) := none
deriving DecidableEq, Repr

/-- A registry type entry, as stored in the global `types` map. -/
structure TypeEntry where
  parse : Option ValueParser := none
  content : Option ContentEntry := none
  children : Option (List (String × ElemSpec)) := none
  anyChildren : Bool := false
  isArray : Option Bool := none
  attributes : Option (List (String × AttrSpec)) := none

/-- Sequential effectful map over a list, mirroring `_.each` bodies that
may throw: the first thrown error aborts the iteration. -/
def eachCollect {β γ : Type} (f : β → Except Err γ) : List β → Except Err (List γ)
  | [] => .ok []
  | b :: rest =>
    match f b with
    | .error e => .error e
    | .ok c =>
      match eachCollect f rest with
      | .error e => .error e
      | .ok cs => .ok (c :: cs)

/-- The final step of the source `resolveElement`: if the resolved spec
carries no `isArray` but a boolean `isArrayDefault` was tracked, a copy
with that `isArray` is returned (`_.clone`); otherwise the spec itself. -/
def finalizeElement (d : Option Bool) (e : ElemSpec) : ElemSpec :=
  match e.isArray with
  | some _ => e
  | none =>
    match d with
    | some b => {e with isArray := some b}
    | none => e

/-- The `while (element.ref)` loop of the source `resolveElement`:
follows `ref` links through the global elements map `reg`, tracking the
most recent `isArrayDefault` of the specs it passes through.  `fuel`
bounds the unbounded source loop. -/
def resolveElementGo (reg : List (String × ElemSpec)) :
    Nat → Option Bool → ElemSpec → Except Err ElemSpec
  | 0, _, _ => .error .outOfFuelE
  | Nat.succ fuel, d, e =>
    match e.ref with
    | none => .ok (finalizeElement d e)
    | some r =>
      match lookupA reg r with
      | none => .error .unknownElementE
      | some e2 =>
        resolveElementGo reg fuel
          (if e.isArrayDefault.isSome then e.isArrayDefault else d) e2

/-- Source `resolveElement(xpath, element)` over the global elements
registry `reg`. -/
def resolveElement (reg : List (String × ElemSpec)) (fuel : Nat)
    (e : ElemSpec) : Except Err ElemSpec :=
  resolveElementGo reg fuel none e

/-- Source `resolveAttributeType(xpath, typeName)`: follows `{ ref: … }`
links through the global attributes map until a plain type name is
reached. -/
def resolveAttributeType (baseAttrs : List (String × AttrSpec)) :
    Nat → AttrSpec → Except Err String
  | 0, _ => .error .outOfFuelE
  | Nat.succ fuel, spec =>
    match spec with
    | .named tn => .ok tn
    | .byRef r =>
      match lookupA baseAttrs r with
      | none => .error .unknownAttributeE
      | some spec2 => resolveAttributeType baseAttrs fuel spec2

/-- Source `resolveToParse(xpath, typeName)`: collects the parse
functions reachable through the `content.base` chain of `typeName`,
flattening unions; a type with neither `parse` nor a base yields `[]`. -/
def resolveToParse (types : List (String × TypeEntry)) :
    Nat → String → Except Err (List ValueParser)
  | 0, _ => .error .outOfFuelE
  | Nat.succ fuel, typeName =>
    match lookupA types typeName with
    | none => .error .unknownTypeE
    | some t =>
      match t.parse with
      | some p => .ok [p]
      | none =>
        match t.content with
        | none => .ok []
        | some c =>
          match c.base with
          | none => .ok []
          | some (.single b) => resolveToParse types fuel b
          | some (.multi bs) =>
            (eachCollect (fun b => resolveToParse types fuel b) bs).map
              List.flatten

/-- Source `resolveToAttributes(xpath, typeName)`: returns
`types[typeName].content.attributes` when both `content` and its
`attributes` are present, and `{}` otherwise.  It does NOT follow the
`content.base` chain. -/
def resolveToAttributes (types : List (String × TypeEntry))
    (typeName : String) : Except Err (List (String × AttrSpec)) :=
  match lookupA types typeName with
  | none => .error .unknownTypeE
  | some t =>
    match t.content with
    | none => .ok []
    | some c =>
      match c.attributes with
      | some attrs => .ok attrs
      | none => .ok []

/-- The behaviour the specification ascribes to `resolveToAttributes`:
walk the `content.base` chain of the type and return the deepest
non-empty attributes map found along it, or the empty map if no type in
the chain declares attributes.  This definition follows the words of
the spec, for comparison with the source embedding
`resolveToAttributes`. -/
def resolveToAttributesSpec (types : List (String × TypeEntry)) :
    Nat → String → Except Err (List (String × AttrSpec))
  | 0, _ => .error .outOfFuelE
  | Nat.succ fuel, typeName =>
    match lookupA types typeName with
    | none => .error .unknownTypeE
    | some t =>
      let own : List (String × AttrSpec) :=
        match t.content with
        | none => []
        | some c => (c.attributes).getD []
      match t.content with
      | none => .ok own
      | some c =>
        match c.base with
        | none => .ok own
        | some (.single b) =>
          match resolveToAttributesSpec types fuel b with
          | .error e => .error e
          | .ok deeper => .ok (if deeper = [] then own else deeper)
        | some (.multi bs) =>
          match eachCollect (fun b => resolveToAttributesSpec types fuel b) bs with
          | .error e => .error e
          | .ok deepers =>
            match deepers.find? (fun m => m ≠ []) with
            | some m => .ok m
            | none => .ok own

/-- A child group inside a normalized element value: the XML parser
(with `explicitArray`) delivers each child group as an ordered list
(`items`); after cardinality collapsing a group may hold a single
element (`one`).  `α` is the (opaque) type of child values. -/
inductive Entry (α : Type)
  | items (l : List α)
  | one (x : α)
deriving DecidableEq, Repr

/-- An element value as seen by `tryRemoveArrays`: a JavaScript object
mapped to an association list from child-group name (or a reserved key)
to its group. -/
abbrev Node (α : Type) := List (String × Entry α)

/-- Per-entry body of the `anyChildren` branch of the source
`tryRemoveArrays`: reserved keys are skipped, and unless the type itself
carries a truthy `isArray` the group must have exactly one occurrence,
which replaces the list. -/
def collapseAnyEntry {α : Type} (isArr : Option Bool)
    (attrkey charkey xmlnskey : String) (e : String × Entry α) :
    Except Err (String × Entry α) :=
  if e.1 = attrkey ∨ e.1 = charkey ∨ e.1 = xmlnskey then .ok e
  else if isArr = some true then .ok e
  else
    match e.2 with
    | .items [x] => .ok (e.1, .one x)
    | _ => .error .assertionFailedE

/-- Per-entry body of the `children` branch of the source
`tryRemoveArrays`: reserved keys are skipped; the group name is
namespace-qualified and looked up in the children map (no entry throws
a validation error); if the resolved child spec has no truthy
`isArray`, the group must have exactly one occurrence, which replaces
the list. -/
def collapseChildEntry {α : Type} (reg : List (String × ElemSpec))
    (fuel : Nat) (attrkey charkey xmlnskey namespace2 : String)
    (ch : List (String × ElemSpec)) (e : String × Entry α) :
    Except Err (String × Entry α) :=
  if e.1 = attrkey ∨ e.1 = charkey ∨ e.1 = xmlnskey then .ok e
  else
    match namespacedName namespace2 e.1 with
    | .error er => .error er
    | .ok childName =>
      match lookupA ch childName with
      | none => .error .unknownElementE
      | some spec =>
        match resolveElement reg fuel spec with
        | .error er => .error er
        | .ok rspec =>
          if rspec.isArray = some true then .ok e
          else
            match e.2 with
            | .items [x] => .ok (e.1, .one x)
            | _ => .error .assertionFailedE

/-- One trial of the source `tryRemoveArrays` against a single concrete
type: the body of the `for` loop, operating on the per-trial shallow
copy of `newValue` (pure here, so the copy is the value itself). -/
def tryRemoveArraysOne {α : Type} (reg : List (String × ElemSpec))
    (fuel : Nat) (attrkey charkey xmlnskey namespace2 : String)
    (t : TypeEntry) (value : Node α) : Except Err (Node α) :=
  if t.anyChildren then
    if value.length = 1 then
      eachCollect (collapseAnyEntry t.isArray attrkey charkey xmlnskey) value
    else .error .assertionFailedE
  else
    match t.children with
    | some ch =>
      eachCollect
        (collapseChildEntry reg fuel attrkey charkey xmlnskey namespace2 ch)
        value
    | none => .error .noChildrenE

/-- The trial loop of the source `tryRemoveArrays`: each iteration
starts from a fresh shallow copy of the original `newValue`
(`var value = _.clone(newValue)`), so every trial receives the same
original input; the last thrown error is rethrown after the loop, and
an empty type list trips `assert(exception)`. -/
def tryRemoveArraysGo {α : Type} (reg : List (String × ElemSpec))
    (fuel : Nat) (attrkey charkey xmlnskey namespace2 : String)
    (newValue : Node α) (exc : Option Err) :
    List TypeEntry → Except Err (Node α)
  | [] =>
    match exc with
    | some e => .error e
    | none => .error .assertionFailedE
  | t :: rest =>
    match tryRemoveArraysOne reg fuel attrkey charkey xmlnskey namespace2
        t newValue with
    | .ok v => .ok v
    | .error e =>
      tryRemoveArraysGo reg fuel attrkey charkey xmlnskey namespace2
        newValue (some e) rest

/-- Source `tryRemoveArrays(xpath, attrkey, charkey, xmlnskey,
namespace, type, newValue)`. -/
def tryRemoveArrays {α : Type} (reg : List (String × ElemSpec))
    (fuel : Nat) (attrkey charkey xmlnskey namespace2 : String)
    (ts : List TypeEntry) (newValue : Node α) : Except Err (Node α) :=
  tryRemoveArraysGo reg fuel attrkey charkey xmlnskey namespace2
    newValue none ts

/-- A raw attribute value on a document node: either a plain string or
an object whose `value` field may be present (`{ value: … }`). -/
inductive AttrVal
  | strV (s : String)
  | objV (v : Option String)
deriving DecidableEq, Repr

/-- Per-attribute body of the validator attribute loop (source
`validator`, attribute handling): the raw name is namespace-qualified
first; `xmlns*` and `xsi:*` attributes are deleted (`none`); a name
missing from the allowed attributes map throws the unexpected-attribute
validation error; otherwise the attribute type is resolved to parsers
and the raw value coerced, stored under the output name. -/
def checkAttrEntry (types : List (String × TypeEntry))
    (baseAttrs : List (String × AttrSpec)) (fuel : Nat)
    (namespace2 : String) (outputWithNamespace : Bool)
    (attributes : List (String × AttrSpec)) (e : String × AttrVal) :
    Except Err (Option (String × JsVal)) :=
  match namespacedName namespace2 e.1 with
  | .error er => .error er
  | .ok attributeName =>
    if e.1.take 5 = "xmlns" then .ok none
    else if e.1.take 4 = "xsi:" then .ok none
    else
      match lookupA attributes attributeName with
      | none => .error .unexpectedAttributeE
      | some spec =>
        match resolveAttributeType baseAttrs fuel spec with
        | .error er => .error er
        | .ok tn =>
          match resolveToParse types fuel tn with
          | .error er => .error er
          | .ok parse =>
            match e.2 with
            | .strV s =>
              match tryParse parse s with
              | .error er => .error er
              | .ok v =>
                match namespacedOrNotName namespace2 e.1 outputWithNamespace with
                | .error er => .error er
                | .ok outName => .ok (some (outName, v))
            | .objV ov =>
              if jsTruthy ov then
                match tryParse parse (ov.getD "") with
                | .error er => .error er
                | .ok v =>
                  match namespacedOrNotName namespace2 e.1 outputWithNamespace with
                  | .error er => .error er
                  | .ok outName => .ok (some (outName, v))
              else .error .invalidAttributeE

/-- The validator attribute loop over the whole `newValue[attrkey]`
object: deleted attributes disappear, the rest are rewritten. -/
def checkAttributes (types : List (String × TypeEntry))
    (baseAttrs : List (String × AttrSpec)) (fuel : Nat)
    (namespace2 : String) (outputWithNamespace : Bool)
    (attributes : List (String × AttrSpec))
    (attrObj : List (String × AttrVal)) :
    Except Err (List (String × JsVal)) :=
  (eachCollect
    (checkAttrEntry types baseAttrs fuel namespace2 outputWithNamespace
      attributes) attrObj).map (List.filterMap id)

/-- The attribute-handling slice of the source `validator` for an
element whose resolved type name is `tn`: the allowed attributes come
from `resolveToAttributes(xpath, tn)` and the node attributes are then
checked against them. -/
def validateAttributesForType (types : List (String × TypeEntry))
    (baseAttrs : List (String × AttrSpec)) (fuel : Nat)
    (namespace2 : String) (outputWithNamespace : Bool) (tn : String)
    (attrObj : List (String × AttrVal)) :
    Except Err (List (String × JsVal)) :=
  match resolveToAttributes types tn with
  | .error er => .error er
  | .ok attributes =>
    checkAttributes types baseAttrs fuel namespace2 outputWithNamespace
      attributes attrObj

/-- `maxOccurs` to cardinality: source
`maxOccurs === "unbounded" || parseInt(maxOccurs) > 1` (with a
`NaN` comparison being false). -/
def maxOccursIsArray (m : String) : Bool :=
  m = "unbounded" ||
    (match parseIntJs m with
     | some n => decide (n > 1)
     | none => false)

/-- A parsed `<element>` node inside a type definition (its `$`
attributes).  The source field `type` is called `typeName` here. -/
structure ElementNode where
  ref : Option String := none
  name : Option String := none
  typeName : Option String := none
  maxOccurs : Option String := none
deriving DecidableEq, Repr

/-- A parsed `<any>` node (its `$.maxOccurs`). -/
structure AnyNode where
  maxOccurs : Option String := none
deriving DecidableEq, Repr

/-- A parsed `<choice>` node: its `$` attributes and `<element>`
children.  Any other content would trip the emptiness assertions of the
source compiler and is not modelled. -/
structure ChoiceNode where
  maxOccurs : Option String := none
  minOccurs : Option String := none
  element : List ElementNode := []
deriving DecidableEq, Repr

/-- A parsed `<sequence>` node: `$` attributes, `<element>` children,
one optional `<choice>` and one optional `<any>`. -/
structure SequenceNode where
  maxOccurs : Option String := none
  minOccurs : Option String := none
  element : List ElementNode := []
  choice : List ChoiceNode := []
  any : List AnyNode := []
deriving DecidableEq, Repr

/-- A parsed `<restriction>` node inside a `<simpleType>` (facets like
`pattern` and `enumeration` are deleted unread by the source). -/
structure RestrictionNode where
  base : Option String := none
deriving DecidableEq, Repr

/-- A parsed `<union>` node inside a `<simpleType>`. -/
structure UnionNode where
  memberTypes : Option String := none
deriving DecidableEq, Repr

/-- A parsed `<simpleType>` node. -/
structure SimpleTypeNode where
  name : Option String := none
  restriction : List RestrictionNode := []
  union : List UnionNode := []
deriving DecidableEq, Repr

/-- A parsed `<attribute>` node.  The source field `type` is called
`typeName` here. -/
structure AttributeNode where
  ref : Option String := none
  name : Option String := none
  typeName : Option String := none
  simpleType : List SimpleTypeNode := []
deriving DecidableEq, Repr

/-- A parsed `<extension>` node under `simpleContent`/`complexContent`:
its `$.base` and `<attribute>` children (source key `attribute`, here
`attributeNodes` since that word is a Lean keyword).  The source
asserts the node is empty after consuming these. -/
structure ExtensionNode where
  base : Option String := none
  attributeNodes : List AttributeNode := []
deriving DecidableEq, Repr

/-- A parsed `<simpleContent>`/`<complexContent>` node. -/
structure ContentNode where
  extension : List ExtensionNode := []
deriving DecidableEq, Repr

/-- A parsed `<complexType>` node, covering the constructs the source
compiler consumes (anything else would trip its emptiness asserts). -/
structure ComplexTypeNode where
  name : Option String := none
  sequence : List SequenceNode := []
  choice : List ChoiceNode := []
  simpleContent : List ContentNode := []
  complexContent : List ContentNode := []
  attributeNodes : List AttributeNode := []
deriving DecidableEq, Repr

/-- Source `parseTypesElement(namespace, element, isArrayDefault)`:
a `$.ref` element yields a by-reference child spec carrying the current
`isArrayDefault`; otherwise `$.name` and `$.type` are required, and
`$.maxOccurs` (or, absent that, the default) decides `isArray`. -/
def parseTypesElement (ns : String) (el : ElementNode) (iad : Option Bool) :
    Except Err (List (String × ElemSpec)) :=
  if jsTruthy el.ref then
    match namespacedName ns (el.ref.getD "") with
    | .error e => .error e
    | .ok er => .ok [(er, {ref := some er, isArrayDefault := iad})]
  else if jsTruthy el.name then
    match namespacedName ns (el.name.getD "") with
    | .error e => .error e
    | .ok en =>
      let ia : Option Bool :=
        if jsTruthy el.maxOccurs then some (maxOccursIsArray (el.maxOccurs.getD ""))
        else iad
      match namespacedTypeName ns (el.typeName.getD "") with
      | .error e => .error e
      | .ok tq => .ok [(en, {typeName := some tq, isArray := ia})]
  else .error .assertionFailedE

/-- The `_.each(... element ...)` accumulation over a list of element
nodes: each result is `_.extend`ed into the children map. -/
def parseTypesElementsGo (ns : String) (iad : Option Bool)
    (acc : List (String × ElemSpec)) :
    List ElementNode → Except Err (List (String × ElemSpec))
  | [] => .ok acc
  | el :: rest =>
    match parseTypesElement ns el iad with
    | .error e => .error e
    | .ok m => parseTypesElementsGo ns iad (extendA acc m) rest

/-- Source `parseTypesChoice(namespace, input)`: requires exactly one
`<choice>`, computes its own `isArrayDefault` from the choice
`$.maxOccurs`, and collects its element children. -/
def parseTypesChoice (ns : String) (choice : List ChoiceNode) :
    Except Err (List (String × ElemSpec)) :=
  match choice with
  | [c] =>
    let iad : Option Bool :=
      if jsTruthy c.maxOccurs then some (maxOccursIsArray (c.maxOccurs.getD ""))
      else none
    parseTypesElementsGo ns iad [] c.element
  | _ => .error .assertionFailedE

/-- Source `parseSimpleType` body for one `<simpleType>` node:
`<restriction base>` records a single base, `<union memberTypes>`
records the whitespace-split member list; the node must carry a
`$.name`. -/
def parseSimpleTypeOne (ns : String) (st : SimpleTypeNode) :
    Except Err (String × TypeEntry) :=
  if st.restriction ≠ [] ∧ st.union ≠ [] then .error .assertionFailedE
  else
    match
      (match st.restriction with
       | [] => .ok none
       | [r] =>
         match namespacedTypeName ns (r.base.getD "") with
         | .error e => .error e
         | .ok b => .ok (some ({base := some (.single b)} : ContentEntry))
       | _ => .error .assertionFailedE : Except Err (Option ContentEntry))
    with
    | .error e => .error e
    | .ok content1 =>
      match
        (match st.union with
         | [] => .ok content1
         | [u] =>
           match u.memberTypes with
           | none => .error .assertionFailedE
           | some mt =>
             match eachCollect (fun b => namespacedTypeName ns b) (splitWsJs mt) with
             | .error e => .error e
             | .ok bs => .ok (some ({base := some (.multi bs)} : ContentEntry))
         | _ => .error .assertionFailedE : Except Err (Option ContentEntry))
      with
      | .error e => .error e
      | .ok content2 =>
        if jsTruthy st.name then
          match namespacedName ns (st.name.getD "") with
          | .error e => .error e
          | .ok qn => .ok (qn, {content := content2})
        else .error .assertionFailedE

/-- The `_.each` accumulation of source `parseSimpleType` over a list of
`<simpleType>` nodes (`result[typeName] = type`). -/
def parseSimpleTypeGo (ns : String) (acc : List (String × TypeEntry)) :
    List SimpleTypeNode → Except Err (List (String × TypeEntry))
  | [] => .ok acc
  | st :: rest =>
    match parseSimpleTypeOne ns st with
    | .error e => .error e
    | .ok (qn, te) => parseSimpleTypeGo ns (insertA acc qn te) rest

/-- Source `parseTypesAttribute(namespace, attribute)`: a `$.ref`
attribute yields a by-reference spec; otherwise `$.name` is required
and either `$.type` names the attribute type or a nested `<simpleType>`
is promoted to a synthesized type name `<attr>-type-<rand>` (the fresh
suffix comes from `rnd` at counter `k`, modelling `randomString()`).
Returns the new attribute bindings, the promoted types (which the
source `_.extend`s into the global `types`), and the next counter. -/
def parseTypesAttribute (rnd : Nat → String) (ns : String) (k : Nat)
    (a : AttributeNode) :
    Except Err (List (String × AttrSpec) × List (String × TypeEntry) × Nat) :=
  if jsTruthy a.ref then
    match namespacedName ns (a.ref.getD "") with
    | .error e => .error e
    | .ok ar => .ok ([(ar, .byRef ar)], [], k)
  else if jsTruthy a.name then
    match namespacedName ns (a.name.getD "") with
    | .error e => .error e
    | .ok an =>
      if jsTruthy a.typeName then
        match namespacedTypeName ns (a.typeName.getD "") with
        | .error e => .error e
        | .ok tq =>
          if a.simpleType ≠ [] then .error .assertionFailedE
          else .ok ([(an, .named tq)], [], k)
      else
        match a.simpleType with
        | [] => .error .assertionFailedE
        | sts =>
          let tName := an ++ "-type-" ++ rnd k
          match parseSimpleTypeGo ns []
              (sts.map (fun st => {st with name := some tName})) with
          | .error e => .error e
          | .ok nts => .ok ([(an, .named tName)], nts, k + 1)
  else .error .assertionFailedE

/-- The `_.each` accumulation over a list of `<attribute>` nodes
(`_.extend(attributes, parseTypesAttribute(...))`, with promoted types
collected aside). -/
def parseTypesAttributesGo (rnd : Nat → String) (ns : String)
    (accA : List (String × AttrSpec)) (accT : List (String × TypeEntry))
    (k : Nat) : List AttributeNode →
    Except Err (List (String × AttrSpec) × List (String × TypeEntry) × Nat)
  | [] => .ok (accA, accT, k)
  | a :: rest =>
    match parseTypesAttribute rnd ns k a with
    | .error e => .error e
    | .ok (m, nts, k2) =>
      parseTypesAttributesGo rnd ns (extendA accA m) (extendA accT nts) k2 rest

/-- The `simpleContent`/`complexContent` handling of source
`parseTypes` for one of the two content lists: exactly one content node
with exactly one `<extension>`, whose `$.base` becomes `content.base`
and whose `<attribute>` children become `content.attributes`. -/
def parseTypesContent (rnd : Nat → String) (ns : String) (k : Nat) :
    List ContentNode →
    Except Err (Option ContentEntry × List (String × TypeEntry) × Nat)
  | [] => .ok (none, [], k)
  | [cn] =>
    match cn.extension with
    | [ex] =>
      match namespacedTypeName ns (ex.base.getD "") with
      | .error e => .error e
      | .ok b =>
        match ex.attributeNodes with
        | [] => .ok (some {base := some (.single b)}, [], k)
        | attrs =>
          match parseTypesAttributesGo rnd ns [] [] k attrs with
          | .error e => .error e
          | .ok (m, nts, k2) =>
            .ok (some {base := some (.single b), attributes := some m}, nts, k2)
    | _ => .error .assertionFailedE
  | _ => .error .assertionFailedE

/-- The body of the source `parseTypes` `_.each` for one
`<complexType name=…>` node: sequence/choice children, `<any>`
handling, simple/complex content, and DIRECT `<attribute>` children —
the latter land in the top-level `attributes` field of the type entry,
NOT in `content.attributes`.  Returns the named entry, the types
promoted from nested attribute simple types, and the next counter. -/
def parseTypesOne (rnd : Nat → String) (ns : String) (k : Nat)
    (ct : ComplexTypeNode) :
    Except Err ((String × TypeEntry) × List (String × TypeEntry) × Nat) :=
  match
    (match ct.sequence with
     | [] => .ok (none, false, none)
     | [sq] =>
       let iad : Option Bool :=
         if jsTruthy sq.maxOccurs then some (maxOccursIsArray (sq.maxOccurs.getD ""))
         else none
       match parseTypesElementsGo ns iad [] sq.element with
       | .error e => .error e
       | .ok ch1 =>
         match
           (match sq.choice with
            | [] => .ok ch1
            | cs =>
              match parseTypesChoice ns cs with
              | .error e => .error e
              | .ok ch2 => .ok (extendA ch1 ch2) : Except Err (List (String × ElemSpec)))
         with
         | .error e => .error e
         | .ok ch =>
           match sq.any with
           | [] => .ok (some ch, false, none)
           | [an] =>
             let isArr : Option Bool :=
               if jsTruthy an.maxOccurs then some (maxOccursIsArray (an.maxOccurs.getD ""))
               else iad
             .ok (some ch, true, isArr)
           | _ => .error .assertionFailedE
     | _ => .error .assertionFailedE :
       Except Err (Option (List (String × ElemSpec)) × Bool × Option Bool))
  with
  | .error e => .error e
  | .ok (children1, anyCh, isArr) =>
    match
      (match ct.choice with
       | [] => .ok children1
       | cs =>
         match parseTypesChoice ns cs with
         | .error e => .error e
         | .ok ch => .ok (some ch) :
           Except Err (Option (List (String × ElemSpec))))
    with
    | .error e => .error e
    | .ok children2 =>
      if ct.simpleContent ≠ [] ∧ ct.complexContent ≠ [] then
        .error .assertionFailedE
      else
        match parseTypesContent rnd ns k ct.simpleContent with
        | .error e => .error e
        | .ok (content1, nts1, k1) =>
          match parseTypesContent rnd ns k1 ct.complexContent with
          | .error e => .error e
          | .ok (content2, nts2, k2) =>
            let content3 := match content2 with
              | some c => some c
              | none => content1
            match
              (match ct.attributeNodes with
               | [] => .ok (none, [], k2)
               | attrs =>
                 match parseTypesAttributesGo rnd ns [] [] k2 attrs with
                 | .error e => .error e
                 | .ok (m, nts, k3) => .ok (some m, nts, k3) :
                   Except Err (Option (List (String × AttrSpec)) ×
                     List (String × TypeEntry) × Nat))
            with
            | .error e => .error e
            | .ok (attrs1, nts3, k4) =>
              if jsTruthy ct.name then
                match namespacedName ns (ct.name.getD "") with
                | .error e => .error e
                | .ok qn =>
                  .ok ((qn,
                    {children := children2, anyChildren := anyCh,
                     isArray := isArr, content := content3,
                     attributes := attrs1}),
                    extendA (extendA nts1 nts2) nts3, k4)
              else .error .assertionFailedE

/-- The `_.each` of source `parseTypes` over all `<complexType>` nodes,
accumulating the new type entries (nested promoted types are merged in,
as the source `_.extend`s them into the global map). -/
def parseTypesGo (rnd : Nat → String) (ns : String)
    (acc : List (String × TypeEntry)) (k : Nat) :
    List ComplexTypeNode → Except Err (List (String × TypeEntry) × Nat)
  | [] => .ok (acc, k)
  | ct :: rest =>
    match parseTypesOne rnd ns k ct with
    | .error e => .error e
    | .ok ((qn, te), extras, k2) =>
      parseTypesGo rnd ns (insertA (extendA acc extras) qn te) k2 rest

/-- Source `parseTypes(namespace, schema)` over the schema top level:
all `<complexType>` nodes followed by all `<simpleType>` nodes. -/
def parseTypes (rnd : Nat → String) (ns : String) (k : Nat)
    (complexTypes : List ComplexTypeNode) (simpleTypes : List SimpleTypeNode) :
    Except Err (List (String × TypeEntry) × Nat) :=
  match parseTypesGo rnd ns [] k complexTypes with
  | .error e => .error e
  | .ok (m, k2) =>
    match parseSimpleTypeGo ns [] simpleTypes with
    | .error e => .error e
    | .ok sm => .ok (extendA m sm, k2)

/-- Modelled from the spec: the multi-value map helper (spec component
C, source module `multivalue`, whose file is not part of the provided
sources) — "a mapping from key to set-of-values with idempotent
insertion".  `addValue` adds a value to the set at a key. -/
def multivalueAddValue (m : List (String × List String)) (k v : String) :
    List (String × List String) :=
  match lookupA m k with
  | none => m ++ [(k, [v])]
  | some vs => if vs.contains v then m else insertA m k (vs ++ [v])

/-- Modelled from the spec: the multi-value map helper membership test;
`hasValue m k v` holds when `v` is in the set stored at `k`. -/
def multivalueHasValue (m : List (String × List String)) (k v : String) :
    Bool :=
  match lookupA m k with
  | none => false
  | some vs => vs.contains v

/-- The per-parser-instance registries of the revision with
`XsdMixin` (`parsedSchemas`, `downloadedSchemas`, `namespacePrefixes`,
`types`, `elements`, `attributes`). -/
structure XsdState where
  parsedSchemas : List (String × List String) := []
  downloadedSchemas : List (String × List String) := []
  namespacePrefixes : List (String × String) := []
  types : List (String × TypeEntry) := []
  elements : List (String × ElemSpec) := []
  attributes : List (String × AttrSpec) := []

/-- Source `XsdMixin.addSchema(namespaceUrl, schemaContent, cb)`: if the
pair (namespace URI, schema bytes) is already recorded in
`parsedSchemas` the call immediately returns an empty imports map and
changes nothing.  Otherwise the body — the external `xml2js` parse of
the bytes followed by prefix collection and compilation, abstracted
here as the `compileBody` parameter — runs, and on success the pair is
committed into `parsedSchemas` (the final
`multivalue.addValue(self.parsedSchemas, namespaceUrl, schemaContent)`
of the source) before the pending imports are returned. -/
def addSchema
    (compileBody : XsdState → String → String →
      Except Err (XsdState × List (String × List String)))
    (s : XsdState) (namespaceUrl schemaContent : String) :
    Except Err (XsdState × List (String × List String)) :=
  if multivalueHasValue s.parsedSchemas namespaceUrl schemaContent then
    .ok (s, [])
  else
    match compileBody s namespaceUrl schemaContent with
    | .error e => .error e
    | .ok (s2, importsAndIncludes) =>
      .ok ({s2 with parsedSchemas :=
              multivalueAddValue s2.parsedSchemas namespaceUrl schemaContent},
           importsAndIncludes)

/-- Source `knownSchemas()`: a (shallow clone of) `parsedSchemas`. -/
def knownSchemas (s : XsdState) : List (String × List String) :=
  s.parsedSchemas

/-- Source `parseNamespacePrefixes(schema, cb)` over the `xmlns:*`
attributes of the schema root: an empty declared prefix is an error; a
URI already bound (to a non-empty prefix) different from the declared
one is the namespace-conflict error; otherwise the binding is written
into the table. -/
def parseNamespacePrefixes (table : List (String × String)) :
    List (String × String) → Except Err (List (String × String))
  | [] => .ok table
  | (attr, value) :: rest =>
    if attr.take 6 = "xmlns:" then
      let ns := attr.drop 6
      if ns = "" then .error .invalidDeclE
      else
        match lookupA table value with
        | some p =>
          if p ≠ "" ∧ p ≠ ns then .error .conflictDeclE
          else parseNamespacePrefixes (insertA table value ns) rest
        | none => parseNamespacePrefixes (insertA table value ns) rest
    else parseNamespacePrefixes table rest

/-- A valid reference chain in the global elements registry: each spec
refers (via `ref`) to the next, which is bound in the registry, and the
final spec is terminal (no `ref`). -/
def chainOk (reg : List (String × ElemSpec)) : List ElemSpec → Prop
  | [] => False
  | [e] => e.ref = none
  | e :: e2 :: rest =>
    (∃ r, e.ref = some r ∧ lookupA reg r = some e2) ∧ chainOk reg (e2 :: rest)

/-- The `isArrayDefault` value tracked by the source `resolveElement`
loop along a chain: each non-terminal spec that carries an
`isArrayDefault` overwrites the tracked value; the terminal spec is
never consulted. -/
def trackedDefault : Option Bool → List ElemSpec → Option Bool
  | d, [] => d
  | d, [_] => d
  | d, e :: e2 :: rest =>
    trackedDefault (if e.isArrayDefault.isSome then e.isArrayDefault else d)
      (e2 :: rest)

/-- A two-type registry for exercising `resolveToAttributes`: type
`n:A` extends `n:B` (its `content.base`), declares no attributes of its
own, while `n:B` declares one content attribute. -/
def c7demoTypes : List (String × TypeEntry) :=
  [("n:A", {content := some {base := some (.single "n:B")}}),
   ("n:B", {content := some {attributes := some [("n:x", .named "string")]}})]

/-- A `<complexType name="T">` with one direct `<attribute name="kind"
type="string">` and nothing else. -/
def c10demoNode : ComplexTypeNode :=
  {name := some "T",
   attributeNodes := [{name := some "kind", typeName := some "string"}]}

/-- The type entry the compiler produces for `c10demoNode` under
namespace `n`: the attribute lands in the TOP-LEVEL `attributes` field
and `content` stays empty. -/
def c10demoEntry : TypeEntry :=
  {attributes := some [("n:kind", AttrSpec.named "string")]}

/-- `eachCollect` success gives a successful image for every element of
the input list. -/
theorem eachCollect_ok_mem {β γ : Type} (f : β → Except Err γ) :
    ∀ (l : List β) (v : List γ) (x : β),
      eachCollect f l = .ok v → x ∈ l → ∃ y, f x = .ok y ∧ y ∈ v := by
  intro l
  induction l with
  | nil => intro v x _ hx; exact absurd hx (List.not_mem_nil x)
  | cons b rest ih =>
    intro v x h hx
    cases hfb : f b with
    | error e => simp [eachCollect, hfb] at h
    | ok c =>
      cases hrest : eachCollect f rest with
      | error e => simp [eachCollect, hfb, hrest] at h
      | ok cs =>
        simp [eachCollect, hfb, hrest] at h
        rcases List.mem_cons.mp hx with hxb | hxr
        · exact ⟨c, by rw [hxb]; exact hfb, by rw [← h]; exact List.mem_cons_self c cs⟩
        · rcases ih cs x hrest hxr with ⟨y, hy, hyv⟩
          exact ⟨y, hy, by rw [← h]; exact List.mem_cons_of_mem c hyv⟩

/-- A failing element makes the whole `eachCollect` iteration fail. -/
theorem eachCollect_error_of_mem {β γ : Type} (f : β → Except Err γ) :
    ∀ (l : List β) (x : β) (e : Err),
      x ∈ l → f x = .error e → ∃ e2, eachCollect f l = .error e2 := by
  intro l
  induction l with
  | nil => intro x e hx _; exact absurd hx (List.not_mem_nil x)
  | cons b rest ih =>
    intro x e hx hfx
    rcases List.mem_cons.mp hx with hxb | hxr
    · exact ⟨e, by simp [eachCollect, ← hxb, hfx]⟩
    · cases hfb : f b with
      | error e0 => exact ⟨e0, by simp [eachCollect, hfb]⟩
      | ok c =>
        rcases ih x e hxr hfx with ⟨e2, he2⟩
        exact ⟨e2, by simp [eachCollect, hfb, he2]⟩

/-- Updating a key makes it resolve to the new value. -/
theorem lookupA_insertA_self {β : Type} (t : List (String × β)) (k : String)
    (v : β) : lookupA (insertA t k v) k = some v := by
  induction t with
  | nil => simp [insertA, lookupA]
  | cons kv rest ih =>
    by_cases hk : kv.1 = k
    · simp [insertA, hk, lookupA]
    · simp [insertA, hk, lookupA, ih]

/-- Updating one key leaves the others unchanged. -/
theorem lookupA_insertA_ne {β : Type} (t : List (String × β)) (k k2 : String)
    (v : β) (h : k ≠ k2) : lookupA (insertA t k v) k2 = lookupA t k2 := by
  induction t with
  | nil => simp [insertA, lookupA, h]
  | cons kv rest ih =>
    by_cases hk : kv.1 = k
    · simp [insertA, hk, lookupA, h]
    · simp [insertA, hk, lookupA, ih]

/-- A key resolves in an appended list through its left part first. -/
theorem lookupA_append_none {β : Type} (t : List (String × β))
    (k : String) (x : β) (h : lookupA t k = none) :
    lookupA (t ++ [(k, x)]) k = some x := by
  induction t with
  | nil => simp [lookupA]
  | cons kv rest ih =>
    by_cases hk : kv.1 = k
    · simp [lookupA, hk] at h
    · simp [lookupA, hk] at h ⊢
      exact ih h

/-- After `addValue m k v`, `hasValue m k v` holds (idempotent
insertion into the set at `k`). -/
theorem multivalueHasValue_addValue (m : List (String × List String))
    (k v : String) :
    multivalueHasValue (multivalueAddValue m k v) k v = true := by
  unfold multivalueAddValue multivalueHasValue
  cases hl : lookupA m k with
  | none => simp [lookupA_append_none m k [v] hl]
  | some vs =>
    by_cases hv : v ∈ vs
    · simp [hv, hl]
    · simp [hv, lookupA_insertA_self]

/-- Once the head parser has failed, the `tryParse` loop keeps calling
it and finally rethrows the recorded error. -/
theorem tryParseGo_error_stable (p : ValueParser) (value : String)
    (e : Err) (h : p value = .error e) :
    ∀ n, tryParseGo (some p) value n (some e) = .error e := by
  intro n
  induction n with
  | zero => rfl
  | succ n ih => simp [tryParseGo, h, ih]

/-- `namespacedName` succeeds whenever both arguments are non-empty. -/
theorem namespacedName_isOk (ns name : String) (hns : ns ≠ "")
    (hname : name ≠ "") : ∃ x, namespacedName ns name = .ok x := by
  unfold namespacedName
  rw [if_neg hns, if_neg hname]
  by_cases h1 : name.take 3 = "xs:"
  · exact ⟨name.drop 3, by rw [if_pos h1]⟩
  · rw [if_neg h1]
    by_cases h2 : name.toList.contains ':' = true
    · exact ⟨name, by rw [if_pos h2]⟩
    · exact ⟨ns ++ ":" ++ name, by rw [if_neg h2]⟩

/-- A run of failing trials at the front of the type list does not
affect the outcome of the first succeeding trial: each trial gets the
original `newValue`. -/
theorem tryRemoveArraysGo_prefix_fail {α : Type}
    (reg : List (String × ElemSpec)) (fuel : Nat)
    (ak ck xk ns : String) (nv v : Node α) (t : TypeEntry)
    (ts2 : List TypeEntry) :
    ∀ (ts1 : List TypeEntry) (exc : Option Err),
      (∀ t1 ∈ ts1, ∃ e,
        tryRemoveArraysOne reg fuel ak ck xk ns t1 nv = .error e) →
      tryRemoveArraysOne reg fuel ak ck xk ns t nv = .ok v →
      tryRemoveArraysGo reg fuel ak ck xk ns nv exc (ts1 ++ t :: ts2) =
        .ok v := by
  intro ts1
  induction ts1 with
  | nil =>
    intro exc _ hok
    simp [tryRemoveArraysGo, hok]
  | cons t1 rest ih =>
    intro exc hfail hok
    rcases hfail t1 (List.mem_cons_self t1 rest) with ⟨e, he⟩
    simp only [List.cons_append, tryRemoveArraysGo, he]
    exact ih (some e) (fun t2 ht2 => hfail t2 (List.mem_cons_of_mem _ ht2)) hok

/-- The `resolveElement` loop, run along a valid chain with enough
fuel, reaches the terminal spec and finalizes it with the tracked
`isArrayDefault`. -/
theorem resolveElementGo_chain (reg : List (String × ElemSpec)) :
    ∀ (es : List ElemSpec) (e : ElemSpec) (d : Option Bool) (fuel : Nat),
      chainOk reg (e :: es) → es.length < fuel →
      resolveElementGo reg fuel d e =
        .ok (finalizeElement (trackedDefault d (e :: es)) (es.getLastD e)) := by
  intro es
  induction es with
  | nil =>
    intro e d fuel hch hf
    have href : e.ref = none := hch
    cases fuel with
    | zero => omega
    | succ n => simp [resolveElementGo, href, trackedDefault, List.getLastD]
  | cons e2 rest ih =>
    intro e d fuel hch hf
    have hch2 : (∃ r, e.ref = some r ∧ lookupA reg r = some e2) ∧
        chainOk reg (e2 :: rest) := hch
    rcases hch2 with ⟨⟨r, href, hlook⟩, hrest⟩
    cases fuel with
    | zero => exact absurd hf (by omega)
    | succ n =>
      have hlen : rest.length < n := by
        have := hf
        simp only [List.length_cons] at this
        omega
      have hrec := ih e2 (if e.isArrayDefault.isSome then e.isArrayDefault else d)
        n hrest hlen
      simp only [resolveElementGo, href, hlook, hrec, trackedDefault]
      cases rest with
      | nil => simp
      | cons r rs =>
        obtain ⟨z, hz⟩ := Option.isSome_iff_exists.mp
          (List.getLast?_isSome.mpr (List.cons_ne_nil r rs))
        simp [List.getLast?_cons_cons, hz]

/-- Step equation: a non-`xmlns:` attribute is skipped. -/
theorem pnp_cons_other (table : List (String × String))
    (rest : List (String × String)) (a u : String)
    (h6 : ¬(a.take 6 = "xmlns:")) :
    parseNamespacePrefixes table ((a, u) :: rest) =
      parseNamespacePrefixes table rest := by
  simp only [parseNamespacePrefixes]
  rw [if_neg h6]

/-- Step equation: an `xmlns:` declaration with an empty prefix is the
invalid-declaration error. -/
theorem pnp_cons_invalid (table : List (String × String))
    (rest : List (String × String)) (a u : String)
    (h6 : a.take 6 = "xmlns:") (hns : a.drop 6 = "") :
    parseNamespacePrefixes table ((a, u) :: rest) =
      .error .invalidDeclE := by
  simp only [parseNamespacePrefixes]
  rw [if_pos h6, if_pos hns]

/-- Step equation: a declaration clashing with an existing non-empty
binding is the conflict error. -/
theorem pnp_cons_conflict (table : List (String × String))
    (rest : List (String × String)) (a u p : String)
    (h6 : a.take 6 = "xmlns:") (hns : ¬(a.drop 6 = ""))
    (hlv : lookupA table u = some p) (hc : p ≠ "" ∧ p ≠ a.drop 6) :
    parseNamespacePrefixes table ((a, u) :: rest) =
      .error .conflictDeclE := by
  simp only [parseNamespacePrefixes]
  rw [if_pos h6, if_neg hns, hlv]
  exact if_pos hc

/-- Step equation: a non-clashing declaration over an existing binding
writes the prefix and continues. -/
theorem pnp_cons_insert_some (table : List (String × String))
    (rest : List (String × String)) (a u p : String)
    (h6 : a.take 6 = "xmlns:") (hns : ¬(a.drop 6 = ""))
    (hlv : lookupA table u = some p) (hc : ¬(p ≠ "" ∧ p ≠ a.drop 6)) :
    parseNamespacePrefixes table ((a, u) :: rest) =
      parseNamespacePrefixes (insertA table u (a.drop 6)) rest := by
  simp only [parseNamespacePrefixes]
  rw [if_pos h6, if_neg hns, hlv]
  exact if_neg hc

/-- Step equation: a declaration for a fresh URI writes the prefix and
continues. -/
theorem pnp_cons_insert_none (table : List (String × String))
    (rest : List (String × String)) (a u : String)
    (h6 : a.take 6 = "xmlns:") (hns : ¬(a.drop 6 = ""))
    (hlv : lookupA table u = none) :
    parseNamespacePrefixes table ((a, u) :: rest) =
      parseNamespacePrefixes (insertA table u (a.drop 6)) rest := by
  simp only [parseNamespacePrefixes]
  rw [if_pos h6, if_neg hns, hlv]

/-- A successful prefix-table run never changes an existing (non-empty)
binding: whatever prefix a URI had before, it has after. -/
theorem parseNamespacePrefixes_preserves :
    ∀ (attrs : List (String × String)) (table table2 : List (String × String))
      (u p : String),
      parseNamespacePrefixes table attrs = .ok table2 →
      lookupA table u = some p → p ≠ "" →
      lookupA table2 u = some p := by
  intro attrs
  induction attrs with
  | nil =>
    intro table table2 u p h hu hp
    simp only [parseNamespacePrefixes] at h
    injection h with h
    rw [← h]; exact hu
  | cons av rest ih =>
    intro table table2 u p h hu hp
    obtain ⟨a, value⟩ := av
    by_cases h6 : a.take 6 = "xmlns:"
    · by_cases hns : a.drop 6 = ""
      · rw [pnp_cons_invalid table rest a value h6 hns] at h
        exact Except.noConfusion h
      · cases hlv : lookupA table value with
        | some q =>
          by_cases hc : q ≠ "" ∧ q ≠ a.drop 6
          · rw [pnp_cons_conflict table rest a value q h6 hns hlv hc] at h
            exact Except.noConfusion h
          · rw [pnp_cons_insert_some table rest a value q h6 hns hlv hc] at h
            by_cases hvu : value = u
            · have hqp : q = p := by
                rw [hvu] at hlv; rw [hlv] at hu; injection hu
              have hpns : p = a.drop 6 := by
                rcases not_and_or.mp hc with h1 | h2
                · rw [hqp] at h1; exact absurd (not_not.mp h1) hp
                · rw [hqp] at h2; exact not_not.mp h2
              refine ih _ _ u p h ?_ hp
              rw [hvu] at *
              rw [← hpns, lookupA_insertA_self]
            · refine ih _ _ u p h ?_ hp
              rw [lookupA_insertA_ne _ _ _ _ hvu]; exact hu
        | none =>
          rw [pnp_cons_insert_none table rest a value h6 hns hlv] at h
          by_cases hvu : value = u
          · rw [hvu] at hlv; rw [hlv] at hu; exact Option.noConfusion hu
          · refine ih _ _ u p h ?_ hp
            rw [lookupA_insertA_ne _ _ _ _ hvu]; exact hu
    · rw [pnp_cons_other table rest a value h6] at h
      exact ih _ _ u p h hu hp

/-- Declaring an already-bound URI under a DIFFERENT prefix anywhere in
the attribute list makes the whole run fail. -/
theorem parseNamespacePrefixes_conflict_fails :
    ∀ (attrs : List (String × String)) (table : List (String × String))
      (u p a q : String),
      lookupA table u = some p → p ≠ "" →
      a.take 6 = "xmlns:" → a.drop 6 = q → q ≠ p →
      (a, u) ∈ attrs →
      ∀ table2, parseNamespacePrefixes table attrs ≠ .ok table2 := by
  intro attrs
  induction attrs with
  | nil =>
    intro table u p a q _ _ _ _ _ hmem
    exact absurd hmem (List.not_mem_nil _)
  | cons av rest ih =>
    intro table u p a q hu hp h6 hq hqp hmem table2 hok
    obtain ⟨b, w⟩ := av
    rcases List.mem_cons.mp hmem with hhead | htail
    · injection hhead with hb hw
      subst hb; subst hw
      by_cases hns : a.drop 6 = ""
      · rw [pnp_cons_invalid table rest a u h6 hns] at hok
        exact Except.noConfusion hok
      · have hcond : p ≠ "" ∧ p ≠ a.drop 6 :=
          ⟨hp, fun hh => hqp (by rw [← hq, ← hh])⟩
        rw [pnp_cons_conflict table rest a u p h6 hns hu hcond] at hok
        exact Except.noConfusion hok
    · by_cases h6b : b.take 6 = "xmlns:"
      · by_cases hnsb : b.drop 6 = ""
        · rw [pnp_cons_invalid table rest b w h6b hnsb] at hok
          exact Except.noConfusion hok
        · cases hlv : lookupA table w with
          | some pw =>
            by_cases hc : pw ≠ "" ∧ pw ≠ b.drop 6
            · rw [pnp_cons_conflict table rest b w pw h6b hnsb hlv hc] at hok
              exact Except.noConfusion hok
            · rw [pnp_cons_insert_some table rest b w pw h6b hnsb hlv hc] at hok
              by_cases hwu : w = u
              · have hpwp : pw = p := by
                  rw [hwu] at hlv; rw [hlv] at hu; injection hu
                have hpns : p = b.drop 6 := by
                  rcases not_and_or.mp hc with h1 | h2
                  · rw [hpwp] at h1; exact absurd (not_not.mp h1) hp
                  · rw [hpwp] at h2; exact not_not.mp h2
                refine ih _ u p a q ?_ hp h6 hq hqp htail table2 hok
                rw [hwu] at *
                rw [← hpns, lookupA_insertA_self]
              · refine ih _ u p a q ?_ hp h6 hq hqp htail table2 hok
                rw [lookupA_insertA_ne _ _ _ _ hwu]; exact hu
          | none =>
            rw [pnp_cons_insert_none table rest b w h6b hnsb hlv] at hok
            by_cases hwu : w = u
            · rw [hwu] at hlv; rw [hlv] at hu; exact Option.noConfusion hu
            · refine ih _ u p a q ?_ hp h6 hq hqp htail table2 hok
              rw [lookupA_insertA_ne _ _ _ _ hwu]; exact hu
      · rw [pnp_cons_other table rest b w h6b] at hok
        exact ih _ u p a q hu hp h6 hq hqp htail table2 hok

/-- A single conflicting declaration fails precisely with the
namespace-conflict error. -/
theorem parseNamespacePrefixes_conflict_single
    (table : List (String × String)) (u p a q : String)
    (hu : lookupA table u = some p) (hp : p ≠ "")
    (h6 : a.take 6 = "xmlns:") (hq : a.drop 6 = q) (hqe : q ≠ "")
    (hqp : q ≠ p) :
    parseNamespacePrefixes table [(a, u)] = .error .conflictDeclE := by
  have hns : ¬(a.drop 6 = "") := by rw [hq]; exact hqe
  have hcond : p ≠ "" ∧ p ≠ a.drop 6 :=
    ⟨hp, fun hh => hqp (by rw [← hq, ← hh])⟩
  exact pnp_cons_conflict table [] a u p h6 hns hu hcond

/-- Re-declaring a URI with the very prefix it is already bound to
succeeds and leaves the table unchanged as a map. -/
theorem parseNamespacePrefixes_same_ok
    (table : List (String × String)) (u p a : String)
    (hu : lookupA table u = some p) (hp : p ≠ "")
    (h6 : a.take 6 = "xmlns:") (hq : a.drop 6 = p) :
    parseNamespacePrefixes table [(a, u)] = .ok (insertA table u p) ∧
    ∀ x, lookupA (insertA table u p) x = lookupA table x := by
  constructor
  · have hns : ¬(a.drop 6 = "") := by rw [hq]; exact hp
    have hcond : ¬(p ≠ "" ∧ p ≠ a.drop 6) := by
      rw [hq]; simp
    rw [pnp_cons_insert_some table [] a u p h6 hns hu hcond, hq]
    simp only [parseNamespacePrefixes]
  · intro x
    by_cases hx : u = x
    · rw [← hx, lookupA_insertA_self, hu]
    · exact lookupA_insertA_ne _ _ _ _ hx

/-- C1: the claim says the boolean parser maps `"true"`/`"1"` to `true`
and `"false"`/`"0"` to `false` rather than testing membership in the
lexical set.  The source parser, evaluated here, returns `true` for the
input `"false"` (and for `"0"`), and `false` for `"maybe"`: it computes
exactly the membership test the claim excludes, so the code contradicts
the claimed (and spec-mandated) behaviour. -/
theorem c1_boolean_parse_is_membership :
    types_boolean_parse "false" = .ok (.boolV true) ∧
    types_boolean_parse "0" = .ok (.boolV true) ∧
    types_boolean_parse "TRUE" = .ok (.boolV true) ∧
    types_boolean_parse "maybe" = .ok (.boolV false) := by
  refine ⟨?_, ?_, ?_, ?_⟩ <;> decide

/-- C2: the claim says `tryParse` invokes the i-th parser on the i-th
attempt.  The source loop applies `parse[0]` in every iteration: with a
failing head parser and a succeeding second parser it rethrows the head
error, while the claimed behaviour (`tryParseSpec`, written from the
spec) returns the second parser result. -/
theorem c2_tryParse_calls_only_head :
    tryParse [fun _ => .error .coercionE, fun s => .ok (.str s)] "x" =
      .error .coercionE ∧
    tryParseSpec [fun _ => .error .coercionE, fun s => .ok (.str s)] "x" =
      .ok (.str "x") ∧
    tryParse [fun _ => .error .coercionE, fun s => .ok (.str s)] "x" ≠
      tryParseSpec [fun _ => .error .coercionE, fun s => .ok (.str s)] "x" :=
  ⟨rfl, rfl, fun h => Except.noConfusion (h.symm.trans rfl)⟩

/-- C4: the claim says every built-in parser raises CoercionError on
malformed input.  The source parsers never throw: `integer` returns
`NaN` for `"abc"` and `boolean` returns the value `false` for
`"maybe"`; both are ordinary return values, not errors. -/
theorem c4_parsers_never_throw :
    types_integer_parse "abc" = .ok .nanV ∧
    types_boolean_parse "maybe" = .ok (.boolV false) ∧
    types_integer_parse "" = .ok .nanV := by
  refine ⟨?_, ?_, ?_⟩ <;> decide

/-- C5: a failed trial leaves the input unchanged.  In the embedding
each `tryRemoveArrays` trial is applied to the original `newValue`
(mirroring the per-trial `_.clone`), so a failing prefix of trials
never affects the first succeeding one; and every `tryParse` attempt
receives the original string unchanged (the result is always that of
applying the head parser to the original input). -/
theorem c5_failed_trials_leave_input_unchanged :
    (∀ (α : Type) (reg : List (String × ElemSpec)) (fuel : Nat)
       (ak ck xk ns : String) (ts1 : List TypeEntry) (t : TypeEntry)
       (ts2 : List TypeEntry) (nv v : Node α),
       (∀ t1 ∈ ts1, ∃ e,
         tryRemoveArraysOne reg fuel ak ck xk ns t1 nv = .error e) →
       tryRemoveArraysOne reg fuel ak ck xk ns t nv = .ok v →
       tryRemoveArrays reg fuel ak ck xk ns (ts1 ++ t :: ts2) nv = .ok v) ∧
    (∀ (p : ValueParser) (rest : List ValueParser) (value : String),
       tryParse (p :: rest) value = p value) := by
  constructor
  · intro α reg fuel ak ck xk ns ts1 t ts2 nv v hfail hok
    exact tryRemoveArraysGo_prefix_fail reg fuel ak ck xk ns nv v t ts2 ts1
      none hfail hok
  · intro p rest value
    cases hpv : p value with
    | ok v =>
      show tryParseGo (some p) value (p :: rest).length none = .ok v
      simp [tryParseGo, hpv]
    | error e =>
      show tryParseGo (some p) value (p :: rest).length none = .error e
      simp [tryParseGo, hpv, tryParseGo_error_stable p value e hpv]

/-- Witness for C5 at a concrete input: a first trial that fails (a
type expecting no children) does not prevent the second trial (an
empty-children complex type) from succeeding on the original value. -/
theorem c5_witness :
    tryRemoveArrays ([] : List (String × ElemSpec)) 1 "@" "#" "$" "n"
      [({} : TypeEntry), ({children := some []} : TypeEntry)]
      ([] : Node Nat) = .ok [] :=
  c5_failed_trials_leave_input_unchanged.1 Nat [] 1 "@" "#" "$" "n"
    [{}] {children := some []} [] [] []
    (fun t1 ht => by
      rw [List.mem_singleton.mp ht]
      exact ⟨Err.noChildrenE, rfl⟩)
    rfl

/-- C6: re-adding a committed schema body is a no-op.  If the pair
(URI, bytes) is already in `parsedSchemas`, `addSchema` returns the
state unchanged (hence `knownSchemas()` unchanged) together with an
empty pending-imports map; and every successful `addSchema` commits the
pair, so the guard applies to all subsequent identical calls. -/
theorem c6_addSchema_noop_on_committed :
    ∀ (compileBody : XsdState → String → String →
        Except Err (XsdState × List (String × List String)))
      (s : XsdState) (uri bytes : String),
      (multivalueHasValue s.parsedSchemas uri bytes = true →
        addSchema compileBody s uri bytes = .ok (s, []) ∧
        knownSchemas s = s.parsedSchemas) ∧
      (∀ s2 imps, addSchema compileBody s uri bytes = .ok (s2, imps) →
        multivalueHasValue s2.parsedSchemas uri bytes = true) := by
  intro compileBody s uri bytes
  constructor
  · intro h
    constructor
    · unfold addSchema
      rw [if_pos h]
    · rfl
  · intro s2 imps h
    unfold addSchema at h
    by_cases hv : multivalueHasValue s.parsedSchemas uri bytes = true
    · rw [if_pos hv] at h
      injection h with h2
      injection h2 with hs hi
      rw [← hs]
      exact hv
    · rw [if_neg hv] at h
      cases hcb : compileBody s uri bytes with
      | error e => rw [hcb] at h; exact Except.noConfusion h
      | ok pr =>
        obtain ⟨s3, imports⟩ := pr
        rw [hcb] at h
        injection h with h2
        injection h2 with hs hi
        rw [← hs]
        exact multivalueHasValue_addValue s3.parsedSchemas uri bytes

/-- Witness for C6 at a concrete state: with `("u", "b")` already
committed, a re-add returns the state unchanged and no imports. -/
theorem c6_witness :
    addSchema (fun s _ _ => .ok (s, []))
      {parsedSchemas := [("u", ["b"])]} "u" "b" =
      .ok ({parsedSchemas := [("u", ["b"])]}, []) :=
  ((c6_addSchema_noop_on_committed (fun s _ _ => .ok (s, []))
    {parsedSchemas := [("u", ["b"])]} "u" "b").1 (by decide)).1

/-- C7 counterexample: the claim says `resolveToAttributes` returns the
deepest non-empty attributes map along the base chain.  On a registry
where `n:A` has base `n:B` and only `n:B` declares attributes, the
source function returns the empty map while the chain-walking behaviour
written from the spec (`resolveToAttributesSpec`) returns the
attributes of `n:B`. -/
theorem c7_counterexample :
    resolveToAttributes c7demoTypes "n:A" = .ok [] ∧
    resolveToAttributesSpec c7demoTypes 5 "n:A" =
      .ok [("n:x", AttrSpec.named "string")] ∧
    resolveToAttributes c7demoTypes "n:A" ≠
      resolveToAttributesSpec c7demoTypes 5 "n:A" := by
  refine ⟨?_, ?_, ?_⟩ <;> decide

/-- C7 (amended): `resolveToAttributes` returns the OWN
`content.attributes` when present and the empty map otherwise; the
`content.base` chain is not consulted. -/
theorem c7_resolveToAttributes_own_content_only :
    ∀ (types : List (String × TypeEntry)) (tn : String) (t : TypeEntry),
      lookupA types tn = some t →
      resolveToAttributes types tn =
        .ok ((t.content.map (fun c => c.attributes.getD [])).getD []) := by
  intro types tn t h
  cases hc : t.content with
  | none => simp [resolveToAttributes, h, hc]
  | some c =>
    cases ha : c.attributes with
    | none => simp [resolveToAttributes, h, hc, ha]
    | some attrs => simp [resolveToAttributes, h, hc, ha]

/-- Witness for the amended C7 at a concrete registry entry. -/
theorem c7_witness :
    resolveToAttributes c7demoTypes "n:B" =
      .ok [("n:x", AttrSpec.named "string")] :=
  (c7_resolveToAttributes_own_content_only c7demoTypes "n:B"
    {content := some {attributes := some [("n:x", .named "string")]}}
    rfl).trans (by decide)

/-- C8: along a valid reference chain, `resolveElement` terminates
(chain length plus one steps of fuel suffice for the source `while`
loop) and returns the terminal spec, finalized with the most recent
`isArrayDefault` tracked along the chain — a copy when an `isArray` is
synthesized, the registry itself being untouched (the embedding is
pure; the source clones before writing). -/
theorem c8_resolveElement_chain :
    ∀ (reg : List (String × ElemSpec)) (e : ElemSpec) (es : List ElemSpec)
      (fuel : Nat),
      chainOk reg (e :: es) → es.length < fuel →
      resolveElement reg fuel e =
        .ok (finalizeElement (trackedDefault none (e :: es)) (es.getLastD e)) := by
  intro reg e es fuel hch hf
  exact resolveElementGo_chain reg es e none fuel hch hf

/-- Witness for C8: a two-hop chain whose middle spec carries
`isArrayDefault = true`; the resolved terminal is returned as a copy
with `isArray = true`. -/
theorem c8_witness :
    resolveElement
      [("r1", ({ref := some "r2", isArrayDefault := some true} : ElemSpec)),
       ("r2", ({typeName := some "T"} : ElemSpec))] 3
      ({ref := some "r1"} : ElemSpec) =
      .ok ({typeName := some "T", isArray := some true} : ElemSpec) := by
  have h := c8_resolveElement_chain
    [("r1", {ref := some "r2", isArrayDefault := some true}),
     ("r2", {typeName := some "T"})]
    {ref := some "r1"}
    [{ref := some "r2", isArrayDefault := some true}, {typeName := some "T"}]
    3
    (by
      refine ⟨⟨"r1", rfl, ?_⟩, ⟨"r2", rfl, ?_⟩, rfl⟩ <;> decide)
    (by decide)
  exact h.trans (by decide)

/-- C9: an `xmlns:` declaration of an already-known URI with a
different prefix fails (with the namespace-conflict error when it is
the declaration reached), re-declaring the same URI with the same
prefix succeeds and leaves the table unchanged as a map, and any
successful run preserves every existing binding — so a URI stays bound
to one prefix for the life of the registry. -/
theorem c9_namespace_binding_unique :
    (∀ (attrs table table2 : List (String × String)) (u p : String),
       parseNamespacePrefixes table attrs = .ok table2 →
       lookupA table u = some p → p ≠ "" → lookupA table2 u = some p) ∧
    (∀ (attrs : List (String × String)) (table : List (String × String))
       (u p a q : String),
       lookupA table u = some p → p ≠ "" →
       a.take 6 = "xmlns:" → a.drop 6 = q → q ≠ p → (a, u) ∈ attrs →
       ∀ table2, parseNamespacePrefixes table attrs ≠ .ok table2) ∧
    (∀ (table : List (String × String)) (u p a q : String),
       lookupA table u = some p → p ≠ "" →
       a.take 6 = "xmlns:" → a.drop 6 = q → q ≠ "" → q ≠ p →
       parseNamespacePrefixes table [(a, u)] = .error .conflictDeclE) ∧
    (∀ (table : List (String × String)) (u p a : String),
       lookupA table u = some p → p ≠ "" →
       a.take 6 = "xmlns:" → a.drop 6 = p →
       parseNamespacePrefixes table [(a, u)] = .ok (insertA table u p) ∧
       ∀ x, lookupA (insertA table u p) x = lookupA table x) := by
  refine ⟨?_, ?_, ?_, ?_⟩
  · intro attrs table table2 u p h hu hp
    exact parseNamespacePrefixes_preserves attrs table table2 u p h hu hp
  · intro attrs table u p a q hu hp h6 hq hqp hmem
    exact parseNamespacePrefixes_conflict_fails attrs table u p a q hu hp h6
      hq hqp hmem
  · intro table u p a q hu hp h6 hq hqe hqp
    exact parseNamespacePrefixes_conflict_single table u p a q hu hp h6 hq
      hqe hqp
  · intro table u p a hu hp h6 hq
    exact parseNamespacePrefixes_same_ok table u p a hu hp h6 hq

/-- Witness for C9 at a concrete table: with `u` bound to prefix `a`,
declaring `xmlns:b="u"` is the conflict error and re-declaring
`xmlns:a="u"` succeeds. -/
theorem c9_witness :
    parseNamespacePrefixes [("u", "a")] [("xmlns:b", "u")] =
      .error .conflictDeclE ∧
    parseNamespacePrefixes [("u", "a")] [("xmlns:a", "u")] =
      .ok (insertA [("u", "a")] "u" "a") :=
  ⟨c9_namespace_binding_unique.2.2.1 [("u", "a")] "u" "a" "xmlns:b" "b"
      (by decide) (by decide) (by decide) (by decide) (by decide) (by decide),
   (c9_namespace_binding_unique.2.2.2 [("u", "a")] "u" "a" "xmlns:a"
      (by decide) (by decide) (by decide) (by decide)).1⟩

/-- C3: in a successful `tryRemoveArrays` trial over a complex type
with declared children, every child group whose spec resolves (through
`resolveElement`, i.e. directly or via `isArrayDefault`) to
`isArray = false` is collapsed to its single element in the output; and
a group with two or more occurrences under such a spec makes the
(single-type) `tryRemoveArrays` call fail. -/
theorem c3_non_array_children_collapse :
    (∀ (α : Type) (reg : List (String × ElemSpec)) (fuel : Nat)
       (ak ck xk ns : String) (t : TypeEntry)
       (ch : List (String × ElemSpec)) (nv v : Node α) (name : String)
       (l : List α) (qn : String) (spec rspec : ElemSpec),
       t.anyChildren = false → t.children = some ch →
       tryRemoveArraysOne reg fuel ak ck xk ns t nv = .ok v →
       (name, Entry.items l) ∈ nv →
       ¬(name = ak ∨ name = ck ∨ name = xk) →
       namespacedName ns name = .ok qn →
       lookupA ch qn = some spec →
       resolveElement reg fuel spec = .ok rspec →
       rspec.isArray = some false →
       ∃ x, l = [x] ∧ (name, Entry.one x) ∈ v) ∧
    (∀ (α : Type) (reg : List (String × ElemSpec)) (fuel : Nat)
       (ak ck xk ns : String) (t : TypeEntry)
       (ch : List (String × ElemSpec)) (nv : Node α) (name : String)
       (l : List α) (qn : String) (spec rspec : ElemSpec),
       t.anyChildren = false → t.children = some ch →
       (name, Entry.items l) ∈ nv →
       ¬(name = ak ∨ name = ck ∨ name = xk) →
       namespacedName ns name = .ok qn →
       lookupA ch qn = some spec →
       resolveElement reg fuel spec = .ok rspec →
       rspec.isArray = some false →
       2 ≤ l.length →
       ∃ e, tryRemoveArrays reg fuel ak ck xk ns [t] nv = .error e) := by
  constructor
  · intro α reg fuel ak ck xk ns t ch nv v name l qn spec rspec hany hch hok
      hmem hres hqn hlook hrespec hfalse
    have hone : tryRemoveArraysOne reg fuel ak ck xk ns t nv =
        eachCollect (collapseChildEntry reg fuel ak ck xk ns ch) nv := by
      simp [tryRemoveArraysOne, hany, hch]
    rw [hone] at hok
    obtain ⟨y, hy, hyv⟩ :=
      eachCollect_ok_mem _ nv v (name, Entry.items l) hok hmem
    have hnott : ¬(rspec.isArray = some true) := by rw [hfalse]; simp
    simp [collapseChildEntry, hres, hqn, hlook, hrespec, hnott] at hy
    cases l with
    | nil => simp at hy
    | cons x xs =>
      cases xs with
      | nil =>
        simp at hy
        exact ⟨x, rfl, by rw [hy]; exact hyv⟩
      | cons x2 rest => simp at hy
  · intro α reg fuel ak ck xk ns t ch nv name l qn spec rspec hany hch hmem
      hres hqn hlook hrespec hfalse hlen
    have hnott : ¬(rspec.isArray = some true) := by rw [hfalse]; simp
    cases l with
    | nil => simp at hlen
    | cons a1 l2 =>
      cases l2 with
      | nil => simp at hlen
      | cons a2 rest =>
        have hentry : collapseChildEntry reg fuel ak ck xk ns ch
            (name, Entry.items (a1 :: a2 :: rest)) =
            .error .assertionFailedE := by
          simp [collapseChildEntry, hres, hqn, hlook, hrespec, hnott]
        obtain ⟨e2, he2⟩ := eachCollect_error_of_mem
          (collapseChildEntry reg fuel ak ck xk ns ch) nv
          (name, Entry.items (a1 :: a2 :: rest)) .assertionFailedE hmem hentry
        refine ⟨e2, ?_⟩
        simp [tryRemoveArrays, tryRemoveArraysGo, tryRemoveArraysOne, hany,
          hch, he2]

/-- Witness for C3: a child group `a` declared with `isArray = false`
is collapsed from a one-element list to its element, and the same group
with two occurrences makes the call fail. -/
theorem c3_witness :
    (∃ x, [7] = [x] ∧
      ("a", Entry.one x) ∈
        (([("a", Entry.one (7 : Nat))]) : Node Nat)) ∧
    (∃ e, tryRemoveArrays ([] : List (String × ElemSpec)) 1 "@" "#" "$" "n"
      [({children :=
          some [("n:a", {typeName := some "T", isArray := some false})]} :
        TypeEntry)]
      ([("a", Entry.items [7, 8])] : Node Nat) = .error e) := by
  constructor
  · exact c3_non_array_children_collapse.1 Nat [] 1 "@" "#" "$" "n"
      {children := some [("n:a", {typeName := some "T", isArray := some false})]}
      [("n:a", {typeName := some "T", isArray := some false})]
      [("a", Entry.items [7])] [("a", Entry.one 7)] "a" [7] "n:a"
      {typeName := some "T", isArray := some false}
      {typeName := some "T", isArray := some false}
      rfl rfl (by decide) (by decide) (by decide) (by decide) (by decide)
      (by decide) rfl
  · exact c3_non_array_children_collapse.2 Nat [] 1 "@" "#" "$" "n"
      {children := some [("n:a", {typeName := some "T", isArray := some false})]}
      [("n:a", {typeName := some "T", isArray := some false})]
      [("a", Entry.items [7, 8])] "a" [7, 8] "n:a"
      {typeName := some "T", isArray := some false}
      {typeName := some "T", isArray := some false}
      rfl rfl (by decide) (by decide) (by decide) (by decide) (by decide)
      rfl (by decide)

/-- C10: direct `<attribute>` children of a named complexType (without
simpleContent/complexContent) are compiled into the TOP-LEVEL
`attributes` field of the type entry and `content` stays empty; since
the validator consults only `content.attributes` via
`resolveToAttributes`, the allowed-attributes map it sees is empty, so
any attribute on such an element (other than the dropped `xmlns*` and
`xsi:*` ones) is rejected with the unexpected-attribute validation
error instead of being coerced. -/
theorem c10_direct_attributes_invisible :
    ∀ (rnd : Nat → String) (ns : String) (k : Nat) (ct : ComplexTypeNode)
      (qn : String) (te : TypeEntry) (extras : List (String × TypeEntry))
      (k2 : Nat),
      ct.sequence = [] → ct.choice = [] → ct.simpleContent = [] →
      ct.complexContent = [] → ct.attributeNodes ≠ [] →
      parseTypesOne rnd ns k ct = .ok ((qn, te), extras, k2) →
      te.content = none ∧ te.attributes.isSome ∧
      (∀ (types : List (String × TypeEntry)),
        lookupA types qn = some te →
        resolveToAttributes types qn = .ok [] ∧
        (∀ (baseAttrs : List (String × AttrSpec)) (fuel : Nat)
           (ns2 : String) (own : Bool) (a : String) (av : AttrVal),
           ns2 ≠ "" → a ≠ "" → a.take 5 ≠ "xmlns" → a.take 4 ≠ "xsi:" →
           checkAttrEntry types baseAttrs fuel ns2 own [] (a, av) =
             .error .unexpectedAttributeE) ∧
        (∀ (baseAttrs : List (String × AttrSpec)) (fuel : Nat)
           (ns2 : String) (own : Bool) (attrObj : List (String × AttrVal))
           (a : String) (av : AttrVal),
           (a, av) ∈ attrObj → ns2 ≠ "" → a ≠ "" →
           a.take 5 ≠ "xmlns" → a.take 4 ≠ "xsi:" →
           ∃ e, validateAttributesForType types baseAttrs fuel ns2 own qn
             attrObj = .error e)) := by
  intro rnd ns k ct qn te extras k2 hseq hcho hsc hcc hattr hok
  unfold parseTypesOne at hok
  rw [hseq, hcho, hsc, hcc] at hok
  simp only [parseTypesContent] at hok
  cases hattrN : ct.attributeNodes with
  | nil => exact absurd hattrN hattr
  | cons a0 arest =>
    rw [hattrN] at hok
    cases hgo : parseTypesAttributesGo rnd ns [] [] k (a0 :: arest) with
    | error e =>
      rw [hgo] at hok
      simp at hok
    | ok tr =>
      obtain ⟨m, nts, k3⟩ := tr
      rw [hgo] at hok
      cases hjt : jsTruthy ct.name with
      | false =>
        rw [hjt] at hok
        simp at hok
      | true =>
        rw [hjt] at hok
        cases hnm : namespacedName ns (ct.name.getD "") with
        | error e =>
          rw [hnm] at hok
          simp at hok
        | ok qn2 =>
          rw [hnm] at hok
          injection hok with h1
          injection h1 with h2 h3
          injection h2 with hq hte
          have hcontent : te.content = none := by rw [← hte]
          have hattrsome : te.attributes.isSome := by rw [← hte]; rfl
          refine ⟨hcontent, hattrsome, ?_⟩
          intro types hlookup
          have hresolve : resolveToAttributes types qn = .ok [] := by
            simp [resolveToAttributes, hlookup, hcontent]
          have hentry : ∀ (baseAttrs : List (String × AttrSpec)) (fuel : Nat)
              (ns2 : String) (own : Bool) (a : String) (av : AttrVal),
              ns2 ≠ "" → a ≠ "" → a.take 5 ≠ "xmlns" → a.take 4 ≠ "xsi:" →
              checkAttrEntry types baseAttrs fuel ns2 own [] (a, av) =
                .error .unexpectedAttributeE := by
            intro baseAttrs fuel ns2 own a av hns2 ha h5 h4
            obtain ⟨x, hx⟩ := namespacedName_isOk ns2 a hns2 ha
            simp [checkAttrEntry, hx, h5, h4, lookupA]
          refine ⟨hresolve, hentry, ?_⟩
          intro baseAttrs fuel ns2 own attrObj a av hmem hns2 ha h5 h4
          obtain ⟨e2, he2⟩ := eachCollect_error_of_mem
            (checkAttrEntry types baseAttrs fuel ns2 own []) attrObj (a, av)
            .unexpectedAttributeE hmem
            (hentry baseAttrs fuel ns2 own a av hns2 ha h5 h4)
          exact ⟨e2, by
            simp [validateAttributesForType, hresolve, checkAttributes, he2,
              Except.map]⟩

/-- Witness for C10: the compiled demo type carries its direct
attribute only in the top-level field, the validator sees an empty
allowed-attributes map, and a document attribute `x:kind` on an element
of this type is rejected. -/
theorem c10_witness :
    resolveToAttributes [("n:T", c10demoEntry)] "n:T" = .ok [] ∧
    (∃ e, validateAttributesForType [("n:T", c10demoEntry)] [] 1 "d" false
      "n:T" [("x:kind", .strV "y")] = .error e) := by
  have h := c10_direct_attributes_invisible (fun _ => "r") "n" 0 c10demoNode
    "n:T" c10demoEntry [] 0 rfl rfl rfl rfl (by simp [c10demoNode]) rfl
  have h2 := h.2.2 [("n:T", c10demoEntry)] rfl
  exact ⟨h2.1, h2.2.2 [] 1 "d" false [("x:kind", .strV "y")] "x:kind"
    (.strV "y") (by simp) (by decide) (by decide) (by decide) (by decide)⟩
